import Mathlib

/-!
Verification of the `transcribe` pipeline (`src/transcribe.py`).

This file gives a shallow embedding of the parts of the program that the
specification talks about: configuration resolution (`load_config`),
download-candidate selection (`Downloader.download`), the transcription stage
(`Transcriber.transcribe` and `_convert_to_wav_16k`), the summarization stage
(`Summarizer.summarize`, `_summarize_gemini`, `_summarize_ollama`) and the
orchestration in `main`.  External collaborators (the JSON library, the
filesystem, ffmpeg, the HTTP services, the download engine) are modelled as
explicit data: JSON values are a concrete inductive with a serializer and a
parser mirroring Python's `json.dump(..., indent=2, ensure_ascii=False)` and
`json.load`, and each external call's outcome is an input of the model.
-/

namespace Transcribe

/-! ### Character utilities

Character-level models of the Python string primitives the program relies on.
-/

/-- JSON whitespace characters, as skipped by Python's `json.load`. -/
def isWsCh (c : Char) : Bool := c = ' ' || c = '\n' || c = '\t' || c = '\r'

/-- ASCII decimal digit test. -/
def isDigCh (c : Char) : Bool := 48 ≤ c.toNat && c.toNat ≤ 57

/-- The decimal digit character for `d` (meaningful for `d < 10`). -/
def digCh (d : Nat) : Char :=
  match d with
  | 0 => '0' | 1 => '1' | 2 => '2' | 3 => '3' | 4 => '4'
  | 5 => '5' | 6 => '6' | 7 => '7' | 8 => '8' | _ => '9'

/-- Numeric value of a decimal digit character. -/
def digVal (c : Char) : Nat := c.toNat - 48

/-- Lower-case hexadecimal digit character (meaningful for `d < 16`),
as produced by Python's `\uXXXX` escapes. -/
def hexCh (d : Nat) : Char :=
  match d with
  | 0 => '0' | 1 => '1' | 2 => '2' | 3 => '3' | 4 => '4'
  | 5 => '5' | 6 => '6' | 7 => '7' | 8 => '8' | 9 => '9'
  | 10 => 'a' | 11 => 'b' | 12 => 'c' | 13 => 'd' | 14 => 'e' | _ => 'f'

/-- Value of a hexadecimal digit character, accepting both cases as
`json.load` does. -/
def hexVal (c : Char) : Option Nat :=
  if 48 ≤ c.toNat && c.toNat ≤ 57 then some (c.toNat - 48)
  else if 97 ≤ c.toNat && c.toNat ≤ 102 then some (c.toNat - 87)
  else if 65 ≤ c.toNat && c.toNat ≤ 70 then some (c.toNat - 55)
  else none

/-- Decimal digits of `n`, most significant first, with explicit fuel so the
definition is structural (executable by the kernel).  `natDigsAux (n+1) n []`
computes Python's `str(n)` for a natural number. -/
def natDigsAux : Nat → Nat → List Char → List Char
  | 0, _, acc => acc
  | fuel + 1, n, acc =>
    if n < 10 then digCh n :: acc
    else natDigsAux fuel (n / 10) (digCh (n % 10) :: acc)

/-- Decimal digits of a natural number, most significant first. -/
def natDigs (n : Nat) : List Char := natDigsAux (n + 1) n []

/-- Recursive restatement of `natDigs` used in proofs. -/
def natDigsRec (n : Nat) : List Char :=
  if n < 10 then [digCh n] else natDigsRec (n / 10) ++ [digCh (n % 10)]
termination_by n
decreasing_by exact Nat.div_lt_self (by omega) (by omega)

/-- Python's `str` on an `int`: a minus sign for negatives, then the decimal
digits. -/
def intDigs (i : Int) : List Char :=
  if i < 0 then '-' :: natDigs i.natAbs else natDigs i.toNat

/-- Numeric value of a list of decimal digit characters. -/
def digsToNat (ds : List Char) : Nat := ds.foldl (fun a c => a * 10 + digVal c) 0

/-! ### The JSON data model

`Json` models the Python values handled by `json.dump` / `json.load` in the
program: `None`, booleans, numbers (restricted to integers in this model),
strings, lists and string-keyed dicts.  A dict is modelled as its key/value
sequence; Python dict construction from a pair sequence is modelled by
`insertKV` below. -/

inductive Json where
  | null : Json
  | bool : Bool → Json
  | num : Int → Json
  | str : String → Json
  | arr : List Json → Json
  | obj : List (String × Json) → Json

/-! ### The serializer

`dumpVal v level` mirrors `json.dump(v, f, indent=2, ensure_ascii=False)`:
strings are escaped exactly as Python's encoder does (with `ensure_ascii`
false only `"`, `\` and control characters are escaped), nonempty containers
put every element on its own line indented two spaces per level, and the
separators are `,` and `: `. -/

/-- Left brace character (ASCII 123). -/
def lbraceCh : Char := Char.ofNat 123

/-- Right brace character (ASCII 125). -/
def rbraceCh : Char := Char.ofNat 125

/-- Escape a single character the way Python's JSON encoder does with
`ensure_ascii=False`. -/
def escCh (c : Char) : List Char :=
  if c = '"' then ['\\', '"']
  else if c = '\\' then ['\\', '\\']
  else if c = '\n' then ['\\', 'n']
  else if c = '\t' then ['\\', 't']
  else if c = '\r' then ['\\', 'r']
  else if c.toNat = 8 then ['\\', 'b']
  else if c.toNat = 12 then ['\\', 'f']
  else if c.toNat < 32 then
    '\\' :: 'u' :: [hexCh (c.toNat / 4096 % 16), hexCh (c.toNat / 256 % 16),
                    hexCh (c.toNat / 16 % 16), hexCh (c.toNat % 16)]
  else [c]

/-- Escape a character list. -/
def escList : List Char → List Char
  | [] => []
  | c :: cs => escCh c ++ escList cs

/-- Indentation for nesting depth `level` (two spaces per level). -/
def pad (level : Nat) : List Char := List.replicate (2 * level) ' '

mutual

/-- Serialize a JSON value at nesting depth `level`. -/
def dumpVal : Json → Nat → List Char
  | .null, _ => ['n', 'u', 'l', 'l']
  | .bool true, _ => ['t', 'r', 'u', 'e']
  | .bool false, _ => ['f', 'a', 'l', 's', 'e']
  | .num i, _ => intDigs i
  | .str s, _ => '"' :: (escList s.data ++ ['"'])
  | .arr [], _ => ['[', ']']
  | .arr (x :: xs), level =>
    '[' :: '\n' :: (pad (level + 1) ++ dumpVal x (level + 1) ++ dumpItems xs (level + 1)
      ++ '\n' :: (pad level ++ [']']))
  | .obj [], _ => [lbraceCh, rbraceCh]
  | .obj (m :: ms), level =>
    lbraceCh :: '\n' :: (pad (level + 1) ++ dumpMember m (level + 1) ++ dumpMembers ms (level + 1)
      ++ '\n' :: (pad level ++ [rbraceCh]))

/-- Serialize the remaining items of a nonempty array. -/
def dumpItems : List Json → Nat → List Char
  | [], _ => []
  | x :: xs, level => ',' :: '\n' :: (pad level ++ dumpVal x level ++ dumpItems xs level)

/-- Serialize one `key: value` member. -/
def dumpMember : String × Json → Nat → List Char
  | (k, v), level => '"' :: (escList k.data ++ ['"'] ++ ':' :: ' ' :: dumpVal v level)

/-- Serialize the remaining members of a nonempty object. -/
def dumpMembers : List (String × Json) → Nat → List Char
  | [], _ => []
  | m :: ms, level => ',' :: '\n' :: (pad level ++ dumpMember m level ++ dumpMembers ms level)

end

/-- `json.dump(v, f, indent=2, ensure_ascii=False)` as a string. -/
def dumpJson (v : Json) : String := String.mk (dumpVal v 0)

/-! ### The parser

A recursive-descent model of Python's `json.load`, with explicit fuel so that
it is structural.  Objects are returned as their raw member sequence (the
collapse of duplicate keys performed by Python's dict construction is modelled
separately by `insertKV`, at the use sites that build dicts). -/

/-- Skip JSON whitespace. -/
def skipWs : List Char → List Char
  | [] => []
  | c :: cs => if isWsCh c then skipWs cs else c :: cs

/-- Consume an expected literal suffix (used for `null`, `true`, `false`). -/
def dropLit : List Char → List Char → Option (List Char)
  | [], cs => some cs
  | l :: ls, c :: cs => if c = l then dropLit ls cs else none
  | _ :: _, [] => none

/-- Parse the body of a JSON string after the opening quote, undoing the
escapes of `escCh` (plus the `\/` and general `\uXXXX` escapes that
`json.load` also accepts). -/
def parseStrBody : List Char → Option (List Char × List Char)
  | [] => none
  | c :: rest =>
    if c = '"' then some ([], rest)
    else if c = '\\' then
      match rest with
      | [] => none
      | e :: rest1 =>
        if e = '"' then (parseStrBody rest1).map (fun p => ('"' :: p.1, p.2))
        else if e = '\\' then (parseStrBody rest1).map (fun p => ('\\' :: p.1, p.2))
        else if e = '/' then (parseStrBody rest1).map (fun p => ('/' :: p.1, p.2))
        else if e = 'n' then (parseStrBody rest1).map (fun p => ('\n' :: p.1, p.2))
        else if e = 't' then (parseStrBody rest1).map (fun p => ('\t' :: p.1, p.2))
        else if e = 'r' then (parseStrBody rest1).map (fun p => ('\r' :: p.1, p.2))
        else if e = 'b' then (parseStrBody rest1).map (fun p => (Char.ofNat 8 :: p.1, p.2))
        else if e = 'f' then (parseStrBody rest1).map (fun p => (Char.ofNat 12 :: p.1, p.2))
        else if e = 'u' then
          match rest1 with
          | a :: b :: c2 :: d :: rest2 =>
            match hexVal a, hexVal b, hexVal c2, hexVal d with
            | some va, some vb, some vc, some vd =>
              (parseStrBody rest2).map
                (fun p => (Char.ofNat (va * 4096 + vb * 256 + vc * 16 + vd) :: p.1, p.2))
            | _, _, _, _ => none
          | _ => none
        else none
    else (parseStrBody rest).map (fun p => (c :: p.1, p.2))

/-- Parse an integer numeral (a minus sign followed by digits, or digits).
This models `json.load` restricted to the integer numerals that the program's
serializer can produce. -/
def parseNum (cs : List Char) : Option (Int × List Char) :=
  match cs with
  | [] => none
  | c :: rest =>
    if c = '-' then
      let ds := rest.takeWhile isDigCh
      if ds.isEmpty then none
      else some (-(Int.ofNat (digsToNat ds)), rest.dropWhile isDigCh)
    else
      let ds := (c :: rest).takeWhile isDigCh
      if ds.isEmpty then none
      else some (Int.ofNat (digsToNat ds), (c :: rest).dropWhile isDigCh)

mutual

/-- Parse one JSON value (after skipping leading whitespace). -/
def parseVal : Nat → List Char → Option (Json × List Char)
  | 0, _ => none
  | fuel + 1, cs =>
    match skipWs cs with
    | [] => none
    | c :: rest =>
      if c = 'n' then (dropLit ['u', 'l', 'l'] rest).map (fun r => (.null, r))
      else if c = 't' then (dropLit ['r', 'u', 'e'] rest).map (fun r => (.bool true, r))
      else if c = 'f' then (dropLit ['a', 'l', 's', 'e'] rest).map (fun r => (.bool false, r))
      else if c = '"' then (parseStrBody rest).map (fun p => (.str (String.mk p.1), p.2))
      else if c = '[' then (parseItems fuel rest).map (fun p => (.arr p.1, p.2))
      else if c = lbraceCh then (parseMembers fuel rest).map (fun p => (.obj p.1, p.2))
      else (parseNum (c :: rest)).map (fun p => (.num p.1, p.2))

/-- Parse the items of an array after the opening bracket. -/
def parseItems : Nat → List Char → Option (List Json × List Char)
  | 0, _ => none
  | fuel + 1, cs =>
    match skipWs cs with
    | [] => none
    | c :: rest =>
      if c = ']' then some ([], rest)
      else
        match parseVal fuel (c :: rest) with
        | none => none
        | some (v, r1) =>
          match parseItemsRest fuel r1 with
          | none => none
          | some (vs, r2) => some (v :: vs, r2)

/-- Parse `, item`* `]` after one array item. -/
def parseItemsRest : Nat → List Char → Option (List Json × List Char)
  | 0, _ => none
  | fuel + 1, cs =>
    match skipWs cs with
    | [] => none
    | c :: rest =>
      if c = ']' then some ([], rest)
      else if c = ',' then
        match parseVal fuel rest with
        | none => none
        | some (v, r1) =>
          match parseItemsRest fuel r1 with
          | none => none
          | some (vs, r2) => some (v :: vs, r2)
      else none

/-- Parse the members of an object after the opening brace. -/
def parseMembers : Nat → List Char → Option (List (String × Json) × List Char)
  | 0, _ => none
  | fuel + 1, cs =>
    match skipWs cs with
    | [] => none
    | c :: rest =>
      if c = rbraceCh then some ([], rest)
      else if c = '"' then
        match parseStrBody rest with
        | none => none
        | some (kcs, r1) =>
          match skipWs r1 with
          | [] => none
          | c2 :: r2 =>
            if c2 = ':' then
              match parseVal fuel r2 with
              | none => none
              | some (v, r3) =>
                match parseMembersRest fuel r3 with
                | none => none
                | some (ms, r4) => some ((String.mk kcs, v) :: ms, r4)
            else none
      else none

/-- Parse `, "key": value`* then a closing brace after one object member. -/
def parseMembersRest : Nat → List Char → Option (List (String × Json) × List Char)
  | 0, _ => none
  | fuel + 1, cs =>
    match skipWs cs with
    | [] => none
    | c :: rest =>
      if c = rbraceCh then some ([], rest)
      else if c = ',' then
        match skipWs rest with
        | [] => none
        | c0 :: r0 =>
          if c0 = '"' then
            match parseStrBody r0 with
            | none => none
            | some (kcs, r1) =>
              match skipWs r1 with
              | [] => none
              | c2 :: r2 =>
                if c2 = ':' then
                  match parseVal fuel r2 with
                  | none => none
                  | some (v, r3) =>
                    match parseMembersRest fuel r3 with
                    | none => none
                    | some (ms, r4) => some ((String.mk kcs, v) :: ms, r4)
                else none
          else none
      else none

end

/-- `json.load` on a whole document: one value, then only trailing whitespace. -/
def parseJson (s : String) : Option Json :=
  match parseVal (s.data.length + 1) s.data with
  | none => none
  | some (v, rest) => if (skipWs rest).isEmpty then some v else none

/-! ### Round-trip lemmas: digits -/

theorem digCh_spec : ∀ d < 10, isDigCh (digCh d) = true ∧ digVal (digCh d) = d := by decide

theorem hexCh_spec : ∀ d < 16, hexVal (hexCh d) = some d := by decide

theorem natDigsAux_eq : ∀ fuel n acc, n < fuel → natDigsAux fuel n acc = natDigsRec n ++ acc := by
  intro fuel
  induction fuel with
  | zero => intro n acc h; omega
  | succ f ih =>
    intro n acc h
    rw [natDigsAux, natDigsRec]
    by_cases h10 : n < 10
    · simp [h10]
    · have hdiv : n / 10 < n := Nat.div_lt_self (by omega) (by omega)
      simp only [h10, if_false]
      rw [ih (n / 10) _ (by omega)]
      simp

theorem natDigs_eq (n : Nat) : natDigs n = natDigsRec n := by
  rw [natDigs, natDigsAux_eq (n + 1) n [] (by omega)]
  simp

theorem natDigsRec_ne_nil (n : Nat) : natDigsRec n ≠ [] := by
  rw [natDigsRec]
  by_cases h : n < 10 <;> simp [h]

theorem natDigsRec_digs (n : Nat) : ∀ c ∈ natDigsRec n, isDigCh c = true := by
  induction n using Nat.strong_induction_on with
  | _ n ih =>
    rw [natDigsRec]
    by_cases h : n < 10
    · simp only [h, if_true, List.mem_singleton]
      intro c hc
      subst hc
      exact (digCh_spec n h).1
    · simp only [h, if_false, List.mem_append, List.mem_singleton]
      intro c hc
      rcases hc with hc | hc
      · exact ih (n / 10) (Nat.div_lt_self (by omega) (by omega)) c hc
      · subst hc
        exact (digCh_spec (n % 10) (Nat.mod_lt _ (by omega))).1

theorem digsToNat_natDigsRec (n : Nat) : digsToNat (natDigsRec n) = n := by
  induction n using Nat.strong_induction_on with
  | _ n ih =>
    rw [natDigsRec]
    by_cases h : n < 10
    · simp only [h, if_true]
      simp [digsToNat, (digCh_spec n h).2]
    · simp only [h, if_false]
      unfold digsToNat
      rw [List.foldl_append]
      have := ih (n / 10) (Nat.div_lt_self (by omega) (by omega))
      unfold digsToNat at this
      rw [this]
      simp [(digCh_spec (n % 10) (Nat.mod_lt _ (by omega))).2]
      omega

/-! ### Round-trip lemmas: list splitting helpers -/

/-- `true` when the list does not start with a decimal digit (so a numeral
parse cannot absorb it). -/
def noDigHead (cs : List Char) : Bool :=
  match cs with
  | [] => true
  | c :: _ => !(isDigCh c)

theorem takeWhile_all_append {p : Char → Bool} :
    ∀ (l r : List Char), (∀ c ∈ l, p c = true) → (l ++ r).takeWhile p = l ++ r.takeWhile p := by
  intro l
  induction l with
  | nil => simp
  | cons c cs ih =>
    intro r h
    have hc := h c (by simp)
    simp only [List.cons_append, List.takeWhile_cons, hc, if_true]
    rw [ih r (fun x hx => h x (by simp [hx]))]

theorem dropWhile_all_append {p : Char → Bool} :
    ∀ (l r : List Char), (∀ c ∈ l, p c = true) → (l ++ r).dropWhile p = r.dropWhile p := by
  intro l
  induction l with
  | nil => simp
  | cons c cs ih =>
    intro r h
    have hc := h c (by simp)
    simp only [List.cons_append, List.dropWhile_cons, hc, if_true]
    exact ih r (fun x hx => h x (by simp [hx]))

theorem takeWhile_noDigHead (r : List Char) (h : noDigHead r = true) :
    r.takeWhile isDigCh = [] := by
  cases r with
  | nil => rfl
  | cons c cs =>
    simp only [noDigHead, Bool.not_eq_true'] at h
    simp [List.takeWhile_cons, h]

theorem dropWhile_noDigHead (r : List Char) (h : noDigHead r = true) :
    r.dropWhile isDigCh = r := by
  cases r with
  | nil => rfl
  | cons c cs =>
    simp only [noDigHead, Bool.not_eq_true'] at h
    simp [List.dropWhile_cons, h]

/-! ### Round-trip lemmas: numerals -/

theorem isDigCh_bounds (c : Char) (h : isDigCh c = true) : 48 ≤ c.toNat ∧ c.toNat ≤ 57 := by
  simp only [isDigCh, Bool.and_eq_true, decide_eq_true_eq] at h
  exact h

theorem parseNum_intDigs (i : Int) (rest : List Char) (h : noDigHead rest = true) :
    parseNum (intDigs i ++ rest) = some (i, rest) := by
  have hdigs : ∀ n : Nat, (natDigs n ++ rest).takeWhile isDigCh = natDigs n := by
    intro n
    rw [takeWhile_all_append _ _ (by rw [natDigs_eq]; exact natDigsRec_digs n),
        takeWhile_noDigHead rest h, List.append_nil]
  have hdrop : ∀ n : Nat, (natDigs n ++ rest).dropWhile isDigCh = rest := by
    intro n
    rw [dropWhile_all_append _ _ (by rw [natDigs_eq]; exact natDigsRec_digs n),
        dropWhile_noDigHead rest h]
  have hval : ∀ n : Nat, digsToNat (natDigs n) = n := by
    intro n; rw [natDigs_eq]; exact digsToNat_natDigsRec n
  by_cases hneg : i < 0
  · simp only [intDigs, hneg, if_true, List.cons_append]
    rw [parseNum]
    have hne : (natDigs i.natAbs).isEmpty = false := by
      rw [natDigs_eq, List.isEmpty_eq_false_iff_exists_mem]
      cases hnd : natDigsRec i.natAbs with
      | nil => exact absurd hnd (natDigsRec_ne_nil _)
      | cons c t => exact ⟨c, by simp⟩
    simp only [if_pos rfl, hdigs, hdrop, hne, Bool.false_eq_true, if_false, hval]
    have : -(Int.ofNat i.natAbs) = i := by
      simp only [Int.ofNat_eq_natCast]
      omega
    rw [this]
    simp
  · simp only [intDigs, hneg, if_false]
    obtain ⟨c, t, hct⟩ : ∃ c t, natDigs i.toNat = c :: t := by
      rw [natDigs_eq]
      cases hnd : natDigsRec i.toNat with
      | nil => exact absurd hnd (natDigsRec_ne_nil _)
      | cons c t => exact ⟨c, t, rfl⟩
    have hcdig : isDigCh c = true := by
      have := natDigsRec_digs i.toNat c
      rw [← natDigs_eq, hct] at this
      exact this (by simp)
    have hbounds := isDigCh_bounds c hcdig
    rw [hct]
    simp only [List.cons_append]
    rw [parseNum]
    have hcne : ¬(c = '-') := by
      intro e
      rw [e] at hbounds
      exact absurd hbounds (by decide)
    have hres : c :: (t ++ rest) = natDigs i.toNat ++ rest := by rw [hct]; simp
    have hne : (natDigs i.toNat).isEmpty = false := by
      rw [natDigs_eq, List.isEmpty_eq_false_iff_exists_mem]
      cases hnd : natDigsRec i.toNat with
      | nil => exact absurd hnd (natDigsRec_ne_nil _)
      | cons c' t' => exact ⟨c', by simp⟩
    simp only [hcne, if_false, hres, hdigs, hdrop, hne, Bool.false_eq_true, hval]
    have : Int.ofNat i.toNat = i := by
      simp only [Int.ofNat_eq_natCast]
      omega
    rw [this]

/-! ### Round-trip lemmas: whitespace -/

theorem skipWs_all_append :
    ∀ l r : List Char, (∀ c ∈ l, isWsCh c = true) → skipWs (l ++ r) = skipWs r := by
  intro l
  induction l with
  | nil => simp
  | cons c cs ih =>
    intro r h
    have hc := h c (by simp)
    simp only [List.cons_append, skipWs, hc, if_true]
    exact ih r (fun x hx => h x (by simp [hx]))

theorem skipWs_not_ws (c : Char) (r : List Char) (h : isWsCh c = false) :
    skipWs (c :: r) = c :: r := by
  simp [skipWs, h]

theorem pad_ws (level : Nat) : ∀ c ∈ pad level, isWsCh c = true := by
  intro c hc
  rw [pad, List.mem_replicate] at hc
  rw [hc.2]
  decide

/-! ### Round-trip lemmas: string escapes -/

theorem parseStrBody_esc :
    ∀ cs rest : List Char, parseStrBody (escList cs ++ '"' :: rest) = some (cs, rest) := by
  intro cs
  induction cs with
  | nil =>
    intro rest
    rw [escList, List.nil_append, parseStrBody.eq_def]
    simp
  | cons c cs ih =>
    intro rest
    rw [escList, List.append_assoc]
    by_cases h1 : c = '"'
    · subst h1
      simp only [escCh, if_pos rfl, List.cons_append, List.nil_append]
      rw [parseStrBody.eq_def]
      simp [ih]
    · by_cases h2 : c = '\\'
      · subst h2
        simp only [escCh, if_neg (by decide : ¬('\\' = '"')), if_pos rfl,
          List.cons_append, List.nil_append]
        rw [parseStrBody.eq_def]
        simp [ih]
      · by_cases h3 : c = '\n'
        · subst h3
          simp only [escCh, if_neg (by decide : ¬('\n' = '"')),
            if_neg (by decide : ¬('\n' = '\\')), if_pos rfl, List.cons_append, List.nil_append]
          rw [parseStrBody.eq_def]
          simp [ih]
        · by_cases h4 : c = '\t'
          · subst h4
            simp only [escCh, if_neg (by decide : ¬('\t' = '"')),
              if_neg (by decide : ¬('\t' = '\\')), if_neg (by decide : ¬('\t' = '\n')),
              if_pos rfl, List.cons_append, List.nil_append]
            rw [parseStrBody.eq_def]
            simp [ih]
          · by_cases h5 : c = '\r'
            · subst h5
              simp only [escCh, if_neg (by decide : ¬('\r' = '"')),
                if_neg (by decide : ¬('\r' = '\\')), if_neg (by decide : ¬('\r' = '\n')),
                if_neg (by decide : ¬('\r' = '\t')), if_pos rfl,
                List.cons_append, List.nil_append]
              rw [parseStrBody.eq_def]
              simp [ih]
            · by_cases h6 : c.toNat = 8
              · have hc : c = Char.ofNat 8 := by rw [← h6, Char.ofNat_toNat]
                simp only [escCh, if_neg h1, if_neg h2, if_neg h3, if_neg h4, if_neg h5, h6,
                  if_pos rfl, List.cons_append, List.nil_append]
                rw [parseStrBody.eq_def]
                simp [ih, hc]
              · by_cases h7 : c.toNat = 12
                · have hc : c = Char.ofNat 12 := by rw [← h7, Char.ofNat_toNat]
                  simp only [escCh, if_neg h1, if_neg h2, if_neg h3, if_neg h4, if_neg h5,
                    h6, if_false, h7, if_pos rfl, List.cons_append, List.nil_append]
                  rw [parseStrBody.eq_def]
                  simp [ih, hc]
                · by_cases h8 : c.toNat < 32
                  · have hv1 := hexCh_spec (c.toNat / 4096 % 16) (Nat.mod_lt _ (by omega))
                    have hv2 := hexCh_spec (c.toNat / 256 % 16) (Nat.mod_lt _ (by omega))
                    have hv3 := hexCh_spec (c.toNat / 16 % 16) (Nat.mod_lt _ (by omega))
                    have hv4 := hexCh_spec (c.toNat % 16) (Nat.mod_lt _ (by omega))
                    have hval : c.toNat / 4096 % 16 * 4096 + c.toNat / 256 % 16 * 256 +
                        c.toNat / 16 % 16 * 16 + c.toNat % 16 = c.toNat := by omega
                    simp only [escCh, if_neg h1, if_neg h2, if_neg h3, if_neg h4, if_neg h5,
                      h6, h7, if_false, if_pos h8, List.cons_append, List.nil_append]
                    rw [parseStrBody.eq_def]
                    simp only [if_neg (by decide : ¬('\\' = '"')), if_pos rfl,
                      if_neg (by decide : ¬('u' = '"')), if_neg (by decide : ¬('u' = '\\')),
                      if_neg (by decide : ¬('u' = '/')), if_neg (by decide : ¬('u' = 'n')),
                      if_neg (by decide : ¬('u' = 't')), if_neg (by decide : ¬('u' = 'r')),
                      if_neg (by decide : ¬('u' = 'b')), if_neg (by decide : ¬('u' = 'f')),
                      hv1, hv2, hv3, hv4, ih, hval, Char.ofNat_toNat]
                    simp
                  · simp only [escCh, if_neg h1, if_neg h2, if_neg h3, if_neg h4, if_neg h5,
                      h6, h7, h8, if_false, List.cons_append, List.nil_append]
                    rw [parseStrBody.eq_def]
                    simp [if_neg h1, if_neg h2, ih]

/-! ### Round-trip lemmas: the parser recovers serialized values -/

theorem skipWs_ws_cons (c : Char) (r : List Char) (h : isWsCh c = true) :
    skipWs (c :: r) = skipWs r := by
  simp [skipWs, h]

/-- `parseVal` first skips whitespace, so a whitespace prefix is irrelevant. -/
theorem parseVal_ws (fuel : Nat) (w x : List Char) (h : ∀ c ∈ w, isWsCh c = true) :
    parseVal fuel (w ++ x) = parseVal fuel x := by
  cases fuel with
  | zero => rfl
  | succ f => rw [parseVal, parseVal, skipWs_all_append w x h]

theorem parseVal_ws_cons (fuel : Nat) (c : Char) (x : List Char) (h : isWsCh c = true) :
    parseVal fuel (c :: x) = parseVal fuel x := by
  cases fuel with
  | zero => rfl
  | succ f => rw [parseVal, parseVal, skipWs_ws_cons c x h]

theorem parseVal_pad (fuel level : Nat) (x : List Char) :
    parseVal fuel (pad level ++ x) = parseVal fuel x :=
  parseVal_ws fuel (pad level) x (pad_ws level)

mutual

/-- Fuel that suffices for the parser on a serialized value. -/
def jfuel : Json → Nat
  | .null => 1
  | .bool _ => 1
  | .num _ => 1
  | .str _ => 1
  | .arr [] => 2
  | .arr (x :: xs) => 2 + jfuel x + jfuelL xs
  | .obj [] => 2
  | .obj ((_, v) :: ms) => 2 + jfuel v + jfuelM ms

/-- Fuel that suffices for parsing the remaining items of an array. -/
def jfuelL : List Json → Nat
  | [] => 1
  | x :: xs => 1 + jfuel x + jfuelL xs

/-- Fuel that suffices for parsing the remaining members of an object. -/
def jfuelM : List (String × Json) → Nat
  | [] => 1
  | (_, v) :: ms => 1 + jfuel v + jfuelM ms

end

theorem intDigs_head (i : Int) : ∃ c t, intDigs i = c :: t ∧ isWsCh c = false ∧
    ¬c = 'n' ∧ ¬c = 't' ∧ ¬c = 'f' ∧ ¬c = '"' ∧ ¬c = '[' ∧ ¬c = lbraceCh ∧ ¬c = ']' := by
  by_cases hneg : i < 0
  · refine ⟨'-', natDigs i.natAbs, ?_, by decide, by decide, by decide, by decide, by decide,
      by decide, by decide, by decide⟩
    simp [intDigs, hneg]
  · obtain ⟨c, t, hct⟩ : ∃ c t, natDigs i.toNat = c :: t := by
      rw [natDigs_eq]
      cases hnd : natDigsRec i.toNat with
      | nil => exact absurd hnd (natDigsRec_ne_nil _)
      | cons c t => exact ⟨c, t, rfl⟩
    have hcdig : isDigCh c = true := by
      have := natDigsRec_digs i.toNat c
      rw [← natDigs_eq, hct] at this
      exact this (by simp)
    have hb := isDigCh_bounds c hcdig
    refine ⟨c, t, by simp [intDigs, hneg, hct], ?_, ?_, ?_, ?_, ?_, ?_, ?_, ?_⟩
    · simp only [isWsCh, Bool.or_eq_false_iff, decide_eq_false_iff_not]
      refine ⟨⟨⟨fun e => absurd (e ▸ hb) (by decide), fun e => absurd (e ▸ hb) (by decide)⟩,
        fun e => absurd (e ▸ hb) (by decide)⟩, fun e => absurd (e ▸ hb) (by decide)⟩
    all_goals exact fun e => absurd (e ▸ hb) (by decide)

theorem dumpVal_head (v : Json) (level : Nat) :
    ∃ c t, dumpVal v level = c :: t ∧ isWsCh c = false ∧ ¬c = ']' := by
  cases v with
  | null => exact ⟨'n', _, rfl, by decide, by decide⟩
  | bool b => cases b with
    | true => exact ⟨'t', _, rfl, by decide, by decide⟩
    | false => exact ⟨'f', _, rfl, by decide, by decide⟩
  | num i =>
    obtain ⟨c, t, hct, hws, _, _, _, _, _, _, hne⟩ := intDigs_head i
    exact ⟨c, t, by rw [dumpVal, hct], hws, hne⟩
  | str s => exact ⟨'"', _, rfl, by decide, by decide⟩
  | arr items => cases items with
    | nil => exact ⟨'[', _, rfl, by decide, by decide⟩
    | cons x xs => exact ⟨'[', _, rfl, by decide, by decide⟩
  | obj members => cases members with
    | nil => exact ⟨lbraceCh, _, rfl, by decide, by decide⟩
    | cons m ms =>
      obtain ⟨k, v⟩ := m
      exact ⟨lbraceCh, _, rfl, by decide, by decide⟩

theorem noDigHead_dumpItems (xs : List Json) (level : Nat) (z : List Char) :
    noDigHead (dumpItems xs level ++ '\n' :: z) = true := by
  cases xs with
  | nil => rw [dumpItems]; simp [noDigHead, isDigCh]
  | cons x xs => rw [dumpItems]; simp [noDigHead, isDigCh]

theorem noDigHead_dumpMembers (ms : List (String × Json)) (level : Nat) (z : List Char) :
    noDigHead (dumpMembers ms level ++ '\n' :: z) = true := by
  cases ms with
  | nil => rw [dumpMembers]; simp [noDigHead, isDigCh]
  | cons m ms => rw [dumpMembers]; simp [noDigHead, isDigCh]

mutual

/-- Round trip: parsing a serialized value yields the value back, leaving the
rest of the input intact. -/
theorem parseVal_dumpVal (v : Json) :
    ∀ (level fuel : Nat) (rest : List Char), jfuel v ≤ fuel → noDigHead rest = true →
      parseVal fuel (dumpVal v level ++ rest) = some (v, rest) := by
  intro level fuel rest hfuel hrest
  cases v with
  | null =>
    rw [jfuel] at hfuel
    obtain ⟨f, rfl⟩ : ∃ f, fuel = f + 1 := ⟨fuel - 1, by omega⟩
    rw [dumpVal, parseVal]
    simp [skipWs, isWsCh, dropLit]
  | bool b =>
    rw [jfuel] at hfuel
    obtain ⟨f, rfl⟩ : ∃ f, fuel = f + 1 := ⟨fuel - 1, by omega⟩
    cases b with
    | true =>
      rw [dumpVal, parseVal]
      simp [skipWs, isWsCh, dropLit]
    | false =>
      rw [dumpVal, parseVal]
      simp [skipWs, isWsCh, dropLit]
  | num i =>
    rw [jfuel] at hfuel
    obtain ⟨f, rfl⟩ : ∃ f, fuel = f + 1 := ⟨fuel - 1, by omega⟩
    obtain ⟨c, t, hct, hws, hn, ht, hf, hq, hbr, hlb, _⟩ := intDigs_head i
    rw [dumpVal, hct, List.cons_append, parseVal, skipWs_not_ws c _ hws]
    simp only [if_neg hn, if_neg ht, if_neg hf, if_neg hq, if_neg hbr, if_neg hlb]
    rw [show c :: (t ++ rest) = intDigs i ++ rest by rw [hct]; simp,
      parseNum_intDigs i rest hrest]
    rfl
  | str s =>
    rw [jfuel] at hfuel
    obtain ⟨f, rfl⟩ : ∃ f, fuel = f + 1 := ⟨fuel - 1, by omega⟩
    rw [dumpVal, List.cons_append, parseVal, skipWs_not_ws '"' _ (by decide)]
    simp only [if_neg (by decide : ¬('"' = 'n')), if_neg (by decide : ¬('"' = 't')),
      if_neg (by decide : ¬('"' = 'f')), if_pos rfl]
    rw [show (escList s.data ++ ['"']) ++ rest = escList s.data ++ '"' :: rest by simp,
      parseStrBody_esc]
    rfl
  | arr items =>
    cases items with
    | nil =>
      rw [jfuel] at hfuel
      obtain ⟨f, rfl⟩ : ∃ f, fuel = f + 1 := ⟨fuel - 1, by omega⟩
      obtain ⟨f', rfl⟩ : ∃ f', f = f' + 1 := ⟨f - 1, by omega⟩
      rw [dumpVal, show (['[', ']'] : List Char) ++ rest = '[' :: (']' :: rest) by simp,
        parseVal, skipWs_not_ws '[' _ (by decide)]
      simp only [if_neg (by decide : ¬('[' = 'n')), if_neg (by decide : ¬('[' = 't')),
        if_neg (by decide : ¬('[' = 'f')), if_neg (by decide : ¬('[' = '"')), if_pos rfl]
      rw [parseItems, skipWs_not_ws ']' _ (by decide)]
      simp
    | cons x xs =>
      rw [jfuel] at hfuel
      obtain ⟨f, rfl⟩ : ∃ f, fuel = f + 1 := ⟨fuel - 1, by omega⟩
      obtain ⟨f', rfl⟩ : ∃ f', f = f' + 1 := ⟨f - 1, by omega⟩
      have hx : jfuel x ≤ f' := by omega
      have hxs : jfuelL xs ≤ f' := by omega
      rw [dumpVal]
      simp only [List.cons_append, List.append_assoc, List.nil_append]
      rw [parseVal, skipWs_not_ws '[' _ (by decide)]
      simp only [if_neg (by decide : ¬('[' = 'n')), if_neg (by decide : ¬('[' = 't')),
        if_neg (by decide : ¬('[' = 'f')), if_neg (by decide : ¬('[' = '"')), if_pos rfl,
        if_true]
      rw [parseItems, skipWs_ws_cons '\n' _ (by decide), skipWs_all_append _ _ (pad_ws _)]
      obtain ⟨c, t, hct, hws, hne⟩ := dumpVal_head x (level + 1)
      rw [hct, List.cons_append, skipWs_not_ws c _ hws]
      simp only [if_neg hne]
      rw [show c :: (t ++ (dumpItems xs (level + 1) ++ '\n' :: (pad level ++ ']' :: rest))) =
        dumpVal x (level + 1) ++ (dumpItems xs (level + 1) ++ '\n' :: (pad level ++ ']' :: rest))
        by rw [hct]; simp]
      rw [parseVal_dumpVal x (level + 1) f' _ hx (noDigHead_dumpItems xs (level + 1) _)]
      try dsimp only
      rw [parseItemsRest_dumpItems xs (level + 1) level f' rest hxs hrest]
      try rfl
  | obj members =>
    cases members with
    | nil =>
      rw [jfuel] at hfuel
      obtain ⟨f, rfl⟩ : ∃ f, fuel = f + 1 := ⟨fuel - 1, by omega⟩
      obtain ⟨f', rfl⟩ : ∃ f', f = f' + 1 := ⟨f - 1, by omega⟩
      rw [dumpVal, show ([lbraceCh, rbraceCh] : List Char) ++ rest =
        lbraceCh :: (rbraceCh :: rest) by simp,
        parseVal, skipWs_not_ws lbraceCh _ (by decide)]
      simp only [if_neg (by decide : ¬(lbraceCh = 'n')), if_neg (by decide : ¬(lbraceCh = 't')),
        if_neg (by decide : ¬(lbraceCh = 'f')), if_neg (by decide : ¬(lbraceCh = '"')),
        if_neg (by decide : ¬(lbraceCh = '[')), if_pos rfl, if_true]
      rw [parseMembers, skipWs_not_ws rbraceCh _ (by decide)]
      simp
    | cons m ms =>
      obtain ⟨k, v⟩ := m
      rw [jfuel] at hfuel
      obtain ⟨f, rfl⟩ : ∃ f, fuel = f + 1 := ⟨fuel - 1, by omega⟩
      obtain ⟨f', rfl⟩ : ∃ f', f = f' + 1 := ⟨f - 1, by omega⟩
      have hv : jfuel v ≤ f' := by omega
      have hms : jfuelM ms ≤ f' := by omega
      rw [dumpVal, dumpMember]
      simp only [List.cons_append, List.append_assoc, List.nil_append]
      rw [parseVal, skipWs_not_ws lbraceCh _ (by decide)]
      simp only [if_neg (by decide : ¬(lbraceCh = 'n')), if_neg (by decide : ¬(lbraceCh = 't')),
        if_neg (by decide : ¬(lbraceCh = 'f')), if_neg (by decide : ¬(lbraceCh = '"')),
        if_neg (by decide : ¬(lbraceCh = '[')), if_pos rfl, if_true]
      rw [parseMembers, skipWs_ws_cons '\n' _ (by decide), skipWs_all_append _ _ (pad_ws _),
        skipWs_not_ws '"' _ (by decide)]
      simp only [if_neg (by decide : ¬('"' = rbraceCh)), if_pos rfl, if_true]
      rw [parseStrBody_esc]
      try dsimp only
      rw [skipWs_not_ws ':' _ (by decide)]
      try dsimp only
      simp only [if_pos rfl, if_true]
      rw [parseVal_ws_cons f' ' ' _ (by decide)]
      rw [parseVal_dumpVal v (level + 1) f' _ hv (noDigHead_dumpMembers ms (level + 1) _)]
      try dsimp only
      rw [parseMembersRest_dumpMembers ms (level + 1) level f' rest hms hrest]
      try rfl

/-- Round trip for the tail of an array: parsing the serialized remaining
items followed by the closing bracket yields the items back. -/
theorem parseItemsRest_dumpItems (xs : List Json) :
    ∀ (lin lout fuel : Nat) (rest : List Char), jfuelL xs ≤ fuel → noDigHead rest = true →
      parseItemsRest fuel (dumpItems xs lin ++ '\n' :: (pad lout ++ (']' :: rest))) =
        some (xs, rest) := by
  intro lin lout fuel rest hfuel hrest
  cases xs with
  | nil =>
    rw [jfuelL] at hfuel
    obtain ⟨f, rfl⟩ : ∃ f, fuel = f + 1 := ⟨fuel - 1, by omega⟩
    rw [dumpItems, List.nil_append, parseItemsRest, skipWs_ws_cons '\n' _ (by decide),
      skipWs_all_append _ _ (pad_ws _), skipWs_not_ws ']' _ (by decide)]
    simp
  | cons y ys =>
    rw [jfuelL] at hfuel
    obtain ⟨f, rfl⟩ : ∃ f, fuel = f + 1 := ⟨fuel - 1, by omega⟩
    have hy : jfuel y ≤ f := by omega
    have hys : jfuelL ys ≤ f := by omega
    rw [dumpItems]
    simp only [List.cons_append, List.append_assoc, List.nil_append]
    rw [parseItemsRest, skipWs_not_ws ',' _ (by decide)]
    simp only [if_neg (by decide : ¬(',' = ']')), if_pos rfl, if_true]
    rw [parseVal_ws_cons f '\n' _ (by decide), parseVal_pad f lin]
    rw [parseVal_dumpVal y lin f _ hy (noDigHead_dumpItems ys lin _)]
    try dsimp only
    rw [parseItemsRest_dumpItems ys lin lout f rest hys hrest]
    try rfl

/-- Round trip for the tail of an object: parsing the serialized remaining
members followed by the closing brace yields the members back. -/
theorem parseMembersRest_dumpMembers (ms : List (String × Json)) :
    ∀ (lin lout fuel : Nat) (rest : List Char), jfuelM ms ≤ fuel → noDigHead rest = true →
      parseMembersRest fuel (dumpMembers ms lin ++ '\n' :: (pad lout ++ (rbraceCh :: rest))) =
        some (ms, rest) := by
  intro lin lout fuel rest hfuel hrest
  cases ms with
  | nil =>
    rw [jfuelM] at hfuel
    obtain ⟨f, rfl⟩ : ∃ f, fuel = f + 1 := ⟨fuel - 1, by omega⟩
    rw [dumpMembers, List.nil_append, parseMembersRest, skipWs_ws_cons '\n' _ (by decide),
      skipWs_all_append _ _ (pad_ws _), skipWs_not_ws rbraceCh _ (by decide)]
    simp
  | cons m ms' =>
    obtain ⟨k, v⟩ := m
    rw [jfuelM] at hfuel
    obtain ⟨f, rfl⟩ : ∃ f, fuel = f + 1 := ⟨fuel - 1, by omega⟩
    have hv : jfuel v ≤ f := by omega
    have hms : jfuelM ms' ≤ f := by omega
    rw [dumpMembers, dumpMember]
    simp only [List.cons_append, List.append_assoc, List.nil_append]
    rw [parseMembersRest, skipWs_not_ws ',' _ (by decide)]
    simp only [if_neg (by decide : ¬(',' = rbraceCh)), if_pos rfl, if_true]
    rw [skipWs_ws_cons '\n' _ (by decide), skipWs_all_append _ _ (pad_ws _),
      skipWs_not_ws '"' _ (by decide)]
    try dsimp only
    simp only [if_pos rfl, if_true]
    rw [parseStrBody_esc]
    try dsimp only
    rw [skipWs_not_ws ':' _ (by decide)]
    try dsimp only
    simp only [if_pos rfl, if_true]
    rw [parseVal_ws_cons f ' ' _ (by decide)]
    rw [parseVal_dumpVal v lin f _ hv (noDigHead_dumpMembers ms' lin _)]
    try dsimp only
    rw [parseMembersRest_dumpMembers ms' lin lout f rest hms hrest]
    try rfl

end

mutual

/-- The fuel bound is below the serialized length, so `parseJson`'s fuel
choice suffices. -/
theorem jfuel_le (v : Json) : ∀ level, jfuel v ≤ (dumpVal v level).length + 1 := by
  intro level
  cases v with
  | null => rw [jfuel, dumpVal]; simp
  | bool b => cases b with
    | true => rw [jfuel, dumpVal]; simp
    | false => rw [jfuel, dumpVal]; simp
  | num i => rw [jfuel]; omega
  | str s => rw [jfuel]; omega
  | arr items =>
    cases items with
    | nil => rw [jfuel, dumpVal]; simp
    | cons x xs =>
      have hx := jfuel_le x (level + 1)
      have hxs := jfuelL_le xs (level + 1)
      rw [jfuel, dumpVal]
      simp only [List.length_cons, List.length_append, pad, List.length_replicate,
        List.length_singleton]
      omega
  | obj members =>
    cases members with
    | nil => rw [jfuel, dumpVal]; simp
    | cons m ms =>
      obtain ⟨k, v⟩ := m
      have hv := jfuel_le v (level + 1)
      have hms := jfuelM_le ms (level + 1)
      rw [jfuel, dumpVal, dumpMember]
      simp only [List.length_cons, List.length_append, pad, List.length_replicate,
        List.length_singleton]
      omega

/-- Length bound for array tails. -/
theorem jfuelL_le (xs : List Json) : ∀ level, jfuelL xs ≤ (dumpItems xs level).length + 1 := by
  intro level
  cases xs with
  | nil => rw [jfuelL, dumpItems]; simp
  | cons x xs =>
    have hx := jfuel_le x level
    have hxs := jfuelL_le xs level
    rw [jfuelL, dumpItems]
    simp only [List.length_cons, List.length_append, pad, List.length_replicate]
    omega

/-- Length bound for object tails. -/
theorem jfuelM_le (ms : List (String × Json)) :
    ∀ level, jfuelM ms ≤ (dumpMembers ms level).length + 1 := by
  intro level
  cases ms with
  | nil => rw [jfuelM, dumpMembers]; simp
  | cons m ms =>
    obtain ⟨k, v⟩ := m
    have hv := jfuel_le v level
    have hms := jfuelM_le ms level
    rw [jfuelM, dumpMembers, dumpMember]
    simp only [List.length_cons, List.length_append, pad, List.length_replicate]
    omega

end

/-- The write-then-parse round trip is the identity on JSON values: re-parsing
a serialized value yields the value itself. -/
theorem parseJson_dumpJson (v : Json) : parseJson (dumpJson v) = some v := by
  have h := parseVal_dumpVal v 0 ((dumpVal v 0).length + 1) []
    (by have := jfuel_le v 0; omega) rfl
  rw [List.append_nil] at h
  rw [parseJson, dumpJson]
  show (match parseVal ((dumpVal v 0).length + 1) (dumpVal v 0) with
    | none => none
    | some (w, rest) => if (skipWs rest).isEmpty then some w else none) = some v
  rw [h]
  rfl

/-! ### Python string primitives used by the program -/

/-- Whitespace as stripped by Python's `str.strip()` (ASCII model). -/
def isPySpaceCh (c : Char) : Bool :=
  c = ' ' || c = '\t' || c = '\n' || c = '\r' || c.toNat = 11 || c.toNat = 12

/-- Python's `str.strip()`: drop leading and trailing whitespace. -/
def pyStrip (s : String) : String :=
  String.mk (((s.data.dropWhile isPySpaceCh).reverse.dropWhile isPySpaceCh).reverse)

/-- Python's `str.lower()` (ASCII model, sufficient for the `"gemini"`
sentinel comparison). -/
def pyLower (s : String) : String := String.mk (s.data.map Char.toLower)

/-- List version of `str.startswith`. -/
def strStarts : List Char → List Char → Bool
  | [], _ => true
  | _ :: _, [] => false
  | a :: as, b :: bs => a = b && strStarts as bs

/-- The input classification of `main`:
`input_arg.startswith("http://") or input_arg.startswith("https://")`. -/
def isUrlInput (s : String) : Bool :=
  strStarts "http://".data s.data || strStarts "https://".data s.data

/-- `Path(s).name`: the final path component. -/
def baseNameOf (s : String) : String :=
  String.mk ((s.data.reverse.takeWhile (fun c => !(c = '/'))).reverse)

/-- `Path(name).stem` on a bare file name: the name without its last suffix
(a suffix needs a dot that is neither leading nor trailing). -/
def stemOf (name : String) : String :=
  let cs := name.data
  let revtail := cs.reverse.takeWhile (fun c => !(c = '.'))
  if revtail.length = cs.length then name
  else if cs.length - revtail.length - 1 = 0 then name
  else if revtail.length = 0 then name
  else String.mk (cs.take (cs.length - revtail.length - 1))

/-- Modelled from the `python-slugify` dependency's default behavior:
lower-cased alphanumeric runs joined by single dashes. -/
def slugTokens : List Char → List Char → List (List Char)
  | [], cur => if cur.isEmpty then [] else [cur.reverse]
  | c :: cs, cur =>
    if c.isAlphanum then slugTokens cs (c.toLower :: cur)
    else if cur.isEmpty then slugTokens cs []
    else cur.reverse :: slugTokens cs []

/-- `slugify` from the external library (model). -/
def slugify (s : String) : String := String.mk (List.intercalate ['-'] (slugTokens s.data []))

/-- `output_base_dir / slug_base` as a path string. -/
def joinPath (a b : String) : String :=
  if strStarts ['/'] a.data.reverse then a ++ b else a ++ "/" ++ b

/-! ### Configuration resolution (`load_config`)

The source checks `Path(CONFIG_FILE_NAME)`, a path relative to the current
working directory, and nothing else.  The per-user location
`~/.config/transcribe/transcribe_config.json` named by the specification is
carried in the filesystem state so that its irrelevance to the result can be
stated, but `load_config` never consults it. -/

def CONFIG_FILE_NAME : String := "transcribe_config.json"

/-- `DEFAULT_CONFIG` from the source, as a JSON object value. -/
def DEFAULT_CONFIG : List (String × Json) :=
  [("whisper_url", .str "http://192.168.1.212:8080/inference"),
   ("ollama_url", .str "http://192.168.1.212:11434/api/generate"),
   ("summarize_model", .str "qwen2.5"),
   ("output_directory", .str "output/"),
   ("downloader_args", .obj
     [("format", .str "bestaudio/best"),
      ("postprocessors", .arr [.obj
        [("key", .str "FFmpegExtractAudio"),
         ("preferredcodec", .str "mp3"),
         ("preferredquality", .str "192")]]),
      ("outtmpl", .str "%(title)s.%(ext)s"),
      ("quiet", .bool true),
      ("no_warnings", .bool true)])]

/-- Python dict assignment `d[k] = v` on an association list without duplicate
keys: replace in place, else append. -/
def insertKV : List (String × Json) → String → Json → List (String × Json)
  | [], k, v => [(k, v)]
  | p :: ps, k, v => if p.1 = k then (k, v) :: ps else p :: insertKV ps k v

/-- Python `dict.update(pairs)` (also how `dict(pairs)` collapses duplicate
keys: last value wins, first position wins). -/
def dictUpdate (base : List (String × Json)) (pairs : List (String × Json)) :
    List (String × Json) :=
  pairs.foldl (fun acc p => insertKV acc p.1 p.2) base

/-- Python `d.get(k)` on an association list (first match; unique on lists
built by `insertKV`). -/
def dictGet : List (String × Json) → String → Option Json
  | [], _ => none
  | p :: ps, k => if p.1 = k then some p.2 else dictGet ps k

/-- The value of the last pair with key `k` (the value a Python dict built
from the pair sequence assigns to `k`). -/
def lastVal : List (String × Json) → String → Option Json
  | [], _ => none
  | p :: ps, k =>
    match lastVal ps k with
    | some v => some v
    | none => if p.1 = k then some p.2 else none

/-- The configuration files the specification talks about: the override in the
current working directory and the one in the per-user configuration
directory.  `none` means the file does not exist. -/
structure ConfigFiles where
  cwdFile : Option String
  userFile : Option String

/-- Result of `load_config`: the resolved configuration plus whether the
parse-failure warning was printed, or the propagated exception when
`config.update` is applied to a non-mapping JSON value. -/
inductive ConfigOutcome where
  | ok (config : List (String × Json)) (warned : Bool)
  | updateCrash (parsed : Json)

/-- `load_config`: starts from a copy of `DEFAULT_CONFIG`; if
`Path(CONFIG_FILE_NAME)` (the working-directory location only — `userFile` is
never read) exists, parses it and merges with `config.update(user_config)`;
a `json.JSONDecodeError` is caught, a warning printed, and defaults kept. -/
def load_config (fs : ConfigFiles) : ConfigOutcome :=
  match fs.cwdFile with
  | none => .ok DEFAULT_CONFIG false
  | some contents =>
    match parseJson contents with
    | none => .ok DEFAULT_CONFIG true
    | some (Json.obj pairs) => .ok (dictUpdate DEFAULT_CONFIG pairs) false
    | some other => .updateCrash other

/-! ### Acquisition (`Downloader.download`)

After the engine runs, the source globs `{base_name}.*` in the download
directory, raises `FileNotFoundError` on an empty result, and otherwise sorts
the candidates by modification time, newest first (`list.sort` with
`key=st_mtime, reverse=True` — a stable sort, modelled by `mergeSort`), and
returns the first. -/

/-- A candidate file found by the glob, with its modification time. -/
structure FoundFile where
  name : String
  mtime : Nat
deriving DecidableEq, Repr

/-- The sort order used by the source: most recently modified first. -/
def mtimeGe (a b : FoundFile) : Bool := b.mtime ≤ a.mtime

/-- `Downloader.download`, from the point where the engine has produced the
candidate list `found_files`. -/
def Downloader.download (found_files : List FoundFile) : Except String FoundFile :=
  if found_files.isEmpty then .error "Downloaded file not found."
  else
    match found_files.mergeSort mtimeGe with
    | [] => .error "Downloaded file not found."
    | f :: _ => .ok f

/-! ### Transcription (`Transcriber.transcribe`)

The stage is modelled over an abstract path type and the outcomes of its two
external calls.  `_convert_to_wav_16k` runs ffmpeg with `check=True` and is
called *before* the `try` block, so a transcode failure propagates without
running the `finally` cleanup; the cleanup deletes the waveform file only when
it exists and differs from the input path. -/

/-- A filesystem path split as `parent / (stem + ext)`, enough to model
`with_suffix`, `stem` and sibling-file naming. -/
structure APath where
  dir : String
  stem : String
  ext : String
deriving DecidableEq, Repr

/-- `Path.with_suffix`: replace the extension. -/
def APath.withSuffix (p : APath) (newExt : String) : APath := { p with ext := newExt }

/-- Outcome of the ffmpeg invocation: success, or a non-zero exit
(`subprocess.CalledProcessError`), in which case `created` records whether
ffmpeg left a file at the output path. -/
inductive ConvertResult where
  | success : ConvertResult
  | failure : Bool → ConvertResult
deriving DecidableEq, Repr

/-- Outcome of the speech-to-text POST: a parsed JSON object on success
  (`response.json()`, a Python dict, hence without duplicate keys), or a
non-2xx status (`raise_for_status`) / transport error. -/
inductive SttResult where
  | ok : List (String × Json) → SttResult
  | httpError : SttResult

/-- The environment of one `transcribe` call. -/
structure TranscribeEnv where
  convert : ConvertResult
  stt : SttResult

inductive TranscribeError where
  | transcodeError : TranscribeError
  | serviceError : TranscribeError
  | typeError : TranscribeError
deriving DecidableEq, Repr

/-- Observable outcome of one `transcribe` call: the returned paths or the
propagated exception, whether a file is present at the waveform path
afterwards, and the two persisted artifacts. -/
structure TranscribeOutcome where
  result : Except TranscribeError (APath × APath)
  wavAtEnd : Bool
  txtWritten : Option String
  segWritten : Option String

/-- `Transcriber.transcribe`. -/
def Transcriber.transcribe (audio_path : APath) (env : TranscribeEnv) : TranscribeOutcome :=
  let wav_path := audio_path.withSuffix ".wav"
  match env.convert with
  | .failure created =>
    { result := .error .transcodeError,
      wavAtEnd := created || decide (wav_path = audio_path),
      txtWritten := none, segWritten := none }
  | .success =>
    let wavLeft := decide (wav_path = audio_path)
    match env.stt with
    | .httpError =>
      { result := .error .serviceError, wavAtEnd := wavLeft,
        txtWritten := none, segWritten := none }
    | .ok resp =>
      match (dictGet resp "text").getD (.str "") with
      | .str t =>
        let base_name := audio_path.stem
        let txt_path : APath := { dir := audio_path.dir, stem := base_name, ext := ".txt" }
        let json_path : APath :=
          { dir := audio_path.dir, stem := base_name ++ "_timestamps", ext := ".json" }
        { result := .ok (txt_path, json_path), wavAtEnd := wavLeft,
          txtWritten := some (pyStrip t),
          segWritten := some (dumpJson ((dictGet resp "segments").getD (.arr []))) }
      | _ =>
        { result := .error .typeError, wavAtEnd := wavLeft,
          txtWritten := none, segWritten := none }

/-! ### Summarization (`Summarizer.summarize`) -/

/-- The fixed system prompt from the source. -/
def SYSTEM_PROMPT : String :=
  "You are an expert technical writer and analyst. Your task is to generate a comprehensive, structured Markdown outline based on the following transcript.\n\nFollow these strict guidelines:\n1. **Structure**: Use hierarchical headings (H1 for title, H2 for main topics, H3 for subtopics) to reflect the logical flow.\n2. **Detail**: Go beyond high-level summaries. Capture specific facts, decisions, technical specifications, and key arguments.\n3. **Clarity**: Use bullet points for readability. Bold key terms and entities.\n4. **Action Items**: Explicitly list any action items, next steps, or open questions at the end.\n5. **Context**: Preserving the context of the discussion is crucial. Do not over-generalize.\n6. **Format**: Return ONLY the Markdown content. Do not include conversational filler like 'Here is the outline'."

/-- The prompt built by `_summarize_ollama`. -/
def ollamaPrompt (transcript_text : String) : String :=
  SYSTEM_PROMPT ++ "\n\nTranscript:\n" ++ transcript_text

/-- The request body sent by `_summarize_ollama`. -/
def ollamaPayload (model transcript_text : String) : Json :=
  .obj [("model", .str model), ("prompt", .str (ollamaPrompt transcript_text)),
        ("stream", .bool false)]

/-- The externally visible requests `summarize` can issue: a run of the
`gemini` CLI (prompt as the `-p` argument, transcript on standard input), or
one HTTP POST to the generation endpoint. -/
inductive SummAction where
  | geminiCLI : String → String → SummAction
  | httpPost : String → Json → SummAction

/-- Is the action an HTTP request? -/
def isHttpPost : SummAction → Bool
  | .httpPost _ _ => true
  | _ => false

/-- `Summarizer.summarize`: dispatch on `self.model.lower() == "gemini"`.
Returns the issued external actions and whether `FileNotFoundError` was
raised because the `gemini` tool is not on the search path. -/
def Summarizer.summarize (gemini_on_path : Bool) (server_url model transcript_text : String) :
    List SummAction × Bool :=
  if pyLower model = "gemini" then
    if gemini_on_path then ([.geminiCLI SYSTEM_PROMPT transcript_text], false)
    else ([], true)
  else
    ([.httpPost server_url (ollamaPayload model transcript_text)], false)

/-! ### Orchestration (`main`)

`mainRun` models `main` from input classification (after argument parsing,
dependency check and configuration load) to the final status report.  Each
externally decided outcome (download success, local-file existence,
transcription and summarization success) is a field of the environment, and
the externally visible steps are recorded in an event trace. -/

inductive Event where
  | mkdtemp : Event
  | downloadAttempt : String → Event
  | moveAudio : Event
  | rmTempDir : Event
  | transcribeCall : Event
  | summarizeCall : Event
deriving DecidableEq, Repr

/-- The command-line arguments. -/
structure Args where
  input : String
  no_summary : Bool
  verbose : Bool
deriving DecidableEq, Repr

/-- The outcomes of the run's external interactions and the loaded
`output_directory` setting. -/
structure MainEnv where
  downloadOk : Bool
  downloadName : String
  localExists : Bool
  localInWorkspace : Bool
  transcribeOk : Bool
  summarizeOk : Bool
  outputDirCfg : String
deriving DecidableEq, Repr

/-- The final status report printed on the success exit path. -/
structure Report where
  workspace : String
  audioName : String
  transcriptName : String
  summaryName : Option String
deriving DecidableEq, Repr

/-- Observable outcome of one run of `main`. -/
structure RunOutcome where
  exitCode : Nat
  trace : List Event
  tempDirCreated : Bool
  tempDirRemoved : Bool
  transcriptWritten : Bool
  summaryWritten : Bool
  report : Option Report
deriving Repr

/-- Steps 2–5 of `main` (workspace placement through the final report),
shared by the URL and local-file input paths.  `summary_path` is assigned
before the `try` block of step 4, so whenever summarization was requested the
variable is bound in `locals()` at report time — also when `summarize`
raised. -/
def mainPipeline (args : Args) (env : MainEnv) (original_filename : String)
    (trace0 : List Event) (tempCreated tempRemoved : Bool) : RunOutcome :=
  let slug_base := slugify (stemOf original_filename)
  let slug_dir := joinPath env.outputDirCfg slug_base
  let trace1 := trace0 ++ [Event.transcribeCall]
  if env.transcribeOk then
    let transcriptName := stemOf original_filename ++ ".txt"
    if args.no_summary then
      let rep : Report :=
        { workspace := slug_dir, audioName := original_filename,
          transcriptName := transcriptName, summaryName := none }
      { exitCode := 0, trace := trace1, tempDirCreated := tempCreated,
        tempDirRemoved := tempRemoved, transcriptWritten := true, summaryWritten := false,
        report := some rep }
    else
      let summary_path : Option String := some (slug_base ++ "_summary.md")
      let trace2 := trace1 ++ [Event.summarizeCall]
      let rep : Report :=
        { workspace := slug_dir, audioName := original_filename,
          transcriptName := transcriptName,
          summaryName := if !args.no_summary && summary_path.isSome then summary_path
            else none }
      { exitCode := 0, trace := trace2, tempDirCreated := tempCreated,
        tempDirRemoved := tempRemoved, transcriptWritten := true,
        summaryWritten := env.summarizeOk, report := some rep }
  else
    { exitCode := 1, trace := trace1, tempDirCreated := tempCreated,
      tempDirRemoved := tempRemoved, transcriptWritten := false, summaryWritten := false,
      report := none }

/-- `main`, from input classification to exit. -/
def mainRun (args : Args) (env : MainEnv) : RunOutcome :=
  if isUrlInput args.input then
    if env.downloadOk then
      mainPipeline args env env.downloadName
        [Event.mkdtemp, Event.downloadAttempt args.input, Event.moveAudio, Event.rmTempDir]
        true true
    else
      { exitCode := 1, trace := [Event.mkdtemp, Event.downloadAttempt args.input],
        tempDirCreated := true, tempDirRemoved := false, transcriptWritten := false,
        summaryWritten := false, report := none }
  else
    if env.localExists then
      mainPipeline args env (baseNameOf args.input)
        (if env.localInWorkspace then [] else [Event.moveAudio]) false false
    else
      { exitCode := 1, trace := [], tempDirCreated := false, tempDirRemoved := false,
        transcriptWritten := false, summaryWritten := false, report := none }

/-! ### Dictionary-merge lemmas -/

theorem dictGet_insertKV (l : List (String × Json)) (k : String) (v : Json) (q : String) :
    dictGet (insertKV l k v) q = if q = k then some v else dictGet l q := by
  induction l with
  | nil =>
    by_cases hq : q = k
    · subst hq
      simp [insertKV, dictGet]
    · simp [insertKV, dictGet, hq, show ¬(k = q) from fun h => hq h.symm]
  | cons p ps ih =>
    by_cases hp : p.1 = k
    · by_cases hq : q = k
      · subst hq
        simp [insertKV, dictGet, hp]
      · simp [insertKV, dictGet, hp, hq, show ¬(k = q) from fun h => hq h.symm,
          show ¬(p.1 = q) from by rw [hp]; exact fun h => hq h.symm]
    · by_cases hpq : p.1 = q
      · have hqk : ¬(q = k) := fun h => hp (by rw [hpq, h])
        simp [insertKV, dictGet, hp, hpq, hqk]
      · simp [insertKV, dictGet, hp, hpq, ih]

theorem dictGet_dictUpdate (pairs : List (String × Json)) :
    ∀ (base : List (String × Json)) (k : String),
      dictGet (dictUpdate base pairs) k =
        match lastVal pairs k with
        | some v => some v
        | none => dictGet base k := by
  induction pairs with
  | nil => intro base k; rfl
  | cons p ps ih =>
    intro base k
    rw [show dictUpdate base (p :: ps) = dictUpdate (insertKV base p.1 p.2) ps from rfl, ih]
    rw [show lastVal (p :: ps) k =
      (match lastVal ps k with
       | some v => some v
       | none => if p.1 = k then some p.2 else none) from rfl]
    cases hl : lastVal ps k with
    | some v => rfl
    | none =>
      dsimp only
      rw [dictGet_insertKV]
      by_cases hq : k = p.1
      · rw [if_pos hq, if_pos hq.symm]
      · rw [if_neg hq, if_neg (fun h => hq h.symm)]

/-! ### The claims -/

/-- C1 (code bug demonstration): when summarization is requested and the
summarization stage raises, the run still exits 0 and keeps the transcript,
but — contrary to the claim — the final status report still contains the
summary line: `summary_path` is assigned before the `try` block, so the
report's `'summary_path' in locals()` guard is always true when summarization
was requested, and the line names a summary file that was never written. -/
theorem main_reports_summary_line_after_failed_summarization :
    let a : Args := { input := "talk.mp3", no_summary := false, verbose := false }
    let e : MainEnv :=
      { downloadOk := false, downloadName := "", localExists := true,
        localInWorkspace := false, transcribeOk := true, summarizeOk := false,
        outputDirCfg := "output/" }
    let rep : Report :=
      { workspace := "output/talk", audioName := "talk.mp3",
        transcriptName := "talk.txt", summaryName := some "talk_summary.md" }
    (mainRun a e).exitCode = 0 ∧ (mainRun a e).transcriptWritten = true ∧
    (mainRun a e).summaryWritten = false ∧
    (mainRun a e).report = some rep :=
  ⟨rfl, rfl, rfl, rfl⟩

/-- C2 (code bug demonstration): with no override in the working directory
and an override present only at the per-user location, `load_config` returns
the defaults — the per-user location is never consulted (the repository's own
`test_load_config_fallback` expects the fallback and fails against this
code). -/
theorem load_config_ignores_user_config_location :
    let fs : ConfigFiles :=
      { cwdFile := none,
        userFile := some "\x7b\"output_directory\": \"fallback_output/\"\x7d" }
    load_config fs = ConfigOutcome.ok DEFAULT_CONFIG false ∧
    dictGet DEFAULT_CONFIG "output_directory" = some (.str "output/") :=
  ⟨rfl, rfl⟩

/-- C3 (counterexample): on the transcode-failure exit path the intermediate
waveform file is *not* deleted even though it was created and differs from the
input path — `_convert_to_wav_16k` raises before the `try`/`finally` block is
entered. -/
theorem transcribe_wav_survives_transcode_failure :
    let ap : APath := { dir := "w", stem := "a", ext := ".mp3" }
    let env : TranscribeEnv := { convert := .failure true, stt := .httpError }
    env.convert = .failure true ∧ ¬(ap.withSuffix ".wav" = ap) ∧
    (Transcriber.transcribe ap env).result = .error .transcodeError ∧
    (Transcriber.transcribe ap env).wavAtEnd = true :=
  ⟨rfl, by decide, rfl, rfl⟩

/-- C3 (amended): on every exit path that enters the upload stage — success,
speech-to-text service failure, and the response-shape crash — the
intermediate 16kHz waveform file is deleted when its path differs from the
input audio path, and it is never deleted when its path equals the input
path.  (On a transcoder failure the exception propagates before the cleanup
scope is entered and no deletion happens.) -/
theorem transcribe_wav_cleanup (ap : APath) (env : TranscribeEnv)
    (hconv : env.convert = .success) :
    (ap.withSuffix ".wav" ≠ ap → (Transcriber.transcribe ap env).wavAtEnd = false) ∧
    (ap.withSuffix ".wav" = ap → (Transcriber.transcribe ap env).wavAtEnd = true) := by
  constructor
  · intro hne
    have hd : decide (ap.withSuffix ".wav" = ap) = false := decide_eq_false hne
    unfold Transcriber.transcribe
    rw [hconv]
    cases env.stt with
    | httpError => simp [hd]
    | ok resp =>
      cases hdg : (dictGet resp "text").getD (.str "") <;> simp [hd, hdg]
  · intro heq
    have hd : decide (ap.withSuffix ".wav" = ap) = true := decide_eq_true heq
    unfold Transcriber.transcribe
    rw [hconv]
    cases env.stt with
    | httpError => simp [hd]
    | ok resp =>
      cases hdg : (dictGet resp "text").getD (.str "") <;> simp [hd, hdg]

/-- Witness for C3's amended theorem at a concrete input. -/
theorem transcribe_wav_cleanup_witness :
    (Transcriber.transcribe { dir := "w", stem := "a", ext := ".mp3" }
      { convert := .success, stt := .httpError }).wavAtEnd = false :=
  (transcribe_wav_cleanup { dir := "w", stem := "a", ext := ".mp3" }
    { convert := .success, stt := .httpError } rfl).1 (by decide)

/-- C4: configuration resolution is a key-wise shallow merge: the override
the code actually loads (the working-directory file) contributes its value
for every key it defines (duplicate keys collapse last-wins, as in a Python
dict), every other key keeps its default, no default key is removed, and with
no override file at all the result is exactly `DEFAULT_CONFIG`. -/
theorem load_config_shallow_merge (s : String) (uf : Option String)
    (o : List (String × Json)) (h : parseJson s = some (.obj o)) (k : String) :
    (load_config { cwdFile := some s, userFile := uf } =
      ConfigOutcome.ok (dictUpdate DEFAULT_CONFIG o) false) ∧
    (dictGet (dictUpdate DEFAULT_CONFIG o) k =
      match lastVal o k with
      | some v => some v
      | none => dictGet DEFAULT_CONFIG k) ∧
    ((dictGet DEFAULT_CONFIG k).isSome → (dictGet (dictUpdate DEFAULT_CONFIG o) k).isSome) ∧
    (load_config { cwdFile := none, userFile := none } = ConfigOutcome.ok DEFAULT_CONFIG false) := by
  refine ⟨by simp [load_config, h], dictGet_dictUpdate o DEFAULT_CONFIG k, ?_, rfl⟩
  intro hsome
  rw [dictGet_dictUpdate o DEFAULT_CONFIG k]
  cases lastVal o k with
  | some v => simp
  | none => simpa using hsome

/-- Witness for C4 at a concrete override file. -/
theorem load_config_shallow_merge_witness :
    (load_config { cwdFile := some "\x7b\"summarize_model\": \"gemini\"\x7d", userFile := none } =
      ConfigOutcome.ok (dictUpdate DEFAULT_CONFIG [("summarize_model", .str "gemini")]) false) ∧
    (dictGet (dictUpdate DEFAULT_CONFIG [("summarize_model", .str "gemini")]) "whisper_url" =
      match lastVal [(("summarize_model" : String), Json.str "gemini")] "whisper_url" with
      | some v => some v
      | none => dictGet DEFAULT_CONFIG "whisper_url") :=
  ⟨(load_config_shallow_merge "\x7b\"summarize_model\": \"gemini\"\x7d" none
      [("summarize_model", .str "gemini")] rfl "whisper_url").1,
   (load_config_shallow_merge "\x7b\"summarize_model\": \"gemini\"\x7d" none
      [("summarize_model", .str "gemini")] rfl "whisper_url").2.1⟩

/-- C5: an override file whose contents cannot be parsed as JSON does not
fail resolution: the `json.JSONDecodeError` is caught, a warning is emitted,
and the defaults are returned unchanged. -/
theorem load_config_unparseable_defaults (s : String) (uf : Option String)
    (h : parseJson s = none) :
    load_config { cwdFile := some s, userFile := uf } =
      ConfigOutcome.ok DEFAULT_CONFIG true := by
  simp [load_config, h]

/-- Witness for C5 at a concrete unparseable file. -/
theorem load_config_unparseable_defaults_witness :
    load_config { cwdFile := some "\x7boops", userFile := none } =
      ConfigOutcome.ok DEFAULT_CONFIG true :=
  load_config_unparseable_defaults "\x7boops" none rfl

/-- C6: with more than one candidate file of pairwise distinct modification
times, `download` returns the most recently modified candidate; with zero
candidates it raises and never returns a path. -/
theorem download_selects_most_recent :
    (∀ found_files : List FoundFile, 1 < found_files.length →
      found_files.Pairwise (fun a b => a.mtime ≠ b.mtime) →
      ∃ f, Downloader.download found_files = .ok f ∧ f ∈ found_files ∧
        ∀ g ∈ found_files, g ≠ f → g.mtime < f.mtime) ∧
    Downloader.download [] = .error "Downloaded file not found." := by
  constructor
  · intro found_files hlen hdist
    have hne : found_files.isEmpty = false := by
      cases found_files with
      | nil => simp at hlen
      | cons a l => rfl
    have hperm := List.mergeSort_perm found_files mtimeGe
    have hsorted : (found_files.mergeSort mtimeGe).Pairwise (fun a b => mtimeGe a b = true) := by
      apply List.sorted_mergeSort
      · intro a b c hab hbc
        simp only [mtimeGe, decide_eq_true_eq] at *
        omega
      · intro a b
        simp only [mtimeGe, Bool.or_eq_true, decide_eq_true_eq]
        omega
    cases hs : found_files.mergeSort mtimeGe with
    | nil =>
      rw [hs] at hperm
      have hlen0 := hperm.length_eq
      rw [List.length_nil] at hlen0
      omega
    | cons f rest =>
      refine ⟨f, ?_, ?_, ?_⟩
      · rw [Downloader.download, if_neg (by rw [hne]; exact Bool.false_ne_true), hs]
      · exact hperm.mem_iff.mp (by rw [hs]; exact List.mem_cons_self f rest)
      · intro g hg hgf
        have hg' : g ∈ f :: rest := by rw [← hs]; exact hperm.mem_iff.mpr hg
        have hgr : g ∈ rest := by
          cases List.mem_cons.mp hg' with
          | inl h => exact absurd h hgf
          | inr h => exact h
        have hle : mtimeGe f g = true := by
          rw [hs] at hsorted
          exact (List.pairwise_cons.mp hsorted).1 g hgr
        have hfmem : f ∈ found_files := hperm.mem_iff.mp (by rw [hs]; exact List.mem_cons_self f rest)
        have hneq : g.mtime ≠ f.mtime := by
          have hsymm : Symmetric (fun a b : FoundFile => a.mtime ≠ b.mtime) :=
            fun a b h => h.symm
          exact hdist.forall hsymm hg hfmem hgf
        simp only [mtimeGe, decide_eq_true_eq] at hle
        omega
  · rfl

/-- Witness for C6 at a concrete candidate list. -/
theorem download_selects_most_recent_witness :
    ∃ f, Downloader.download [⟨"a.mp3", 5⟩, ⟨"a.wav", 9⟩] = .ok f ∧
      f ∈ [({ name := "a.mp3", mtime := 5 } : FoundFile), { name := "a.wav", mtime := 9 }] ∧
      ∀ g ∈ [({ name := "a.mp3", mtime := 5 } : FoundFile), { name := "a.wav", mtime := 9 }],
        g ≠ f → g.mtime < f.mtime :=
  download_selects_most_recent.1 _ (by decide) (by decide)

/-- The `text` field extracted by `transcribe`: `result.get("text", "")`,
assuming the field (if present) is a string. -/
def textOf (resp : List (String × Json)) : String :=
  match (dictGet resp "text").getD (.str "") with
  | .str t => t
  | _ => ""

/-- Whether `result.get("text", "")` is a string (otherwise `.strip()`
raises). -/
def textOk (resp : List (String × Json)) : Bool :=
  match (dictGet resp "text").getD (.str "") with
  | .str _ => true
  | _ => false

/-- The `segments` field extracted by `transcribe`: `result.get("segments", [])`. -/
def segmentsOf (resp : List (String × Json)) : Json :=
  (dictGet resp "segments").getD (.arr [])

/-- C7: for every successful speech-to-text response, the persisted
transcript equals the response's `text` field stripped of surrounding
whitespace (empty when absent), and re-parsing the persisted segments JSON
yields the response's `segments` field exactly (empty sequence when absent) —
the write-then-parse round trip is the identity. -/
theorem transcribe_persists_text_and_segments (ap : APath) (env : TranscribeEnv)
    (resp : List (String × Json)) (hstt : env.stt = .ok resp)
    (hconv : env.convert = .success) (htext : textOk resp = true) :
    (Transcriber.transcribe ap env).txtWritten = some (pyStrip (textOf resp)) ∧
    ((Transcriber.transcribe ap env).segWritten.bind parseJson) = some (segmentsOf resp) := by
  have ht : ∃ t, (dictGet resp "text").getD (.str "") = Json.str t := by
    unfold textOk at htext
    cases hdg : (dictGet resp "text").getD (.str "") with
    | str t => exact ⟨t, rfl⟩
    | null => rw [hdg] at htext; simp at htext
    | bool b => rw [hdg] at htext; simp at htext
    | num i => rw [hdg] at htext; simp at htext
    | arr l => rw [hdg] at htext; simp at htext
    | obj l => rw [hdg] at htext; simp at htext
  obtain ⟨t, ht⟩ := ht
  unfold Transcriber.transcribe
  rw [hconv, hstt]
  dsimp only
  rw [ht]
  dsimp only
  constructor
  · rw [show textOf resp = t by unfold textOf; rw [ht]]
  · rw [Option.some_bind, parseJson_dumpJson]
    rfl

/-- Witness for C7 at a concrete response. -/
theorem transcribe_persists_text_and_segments_witness :
    (Transcriber.transcribe { dir := "w", stem := "a", ext := ".mp3" }
      { convert := .success,
        stt := .ok [("text", .str "  hi there \n"),
          ("segments", .arr [.obj [("start", .num 0), ("end", .num 1)]])] }).txtWritten =
      some (pyStrip (textOf [("text", .str "  hi there \n"),
        ("segments", .arr [.obj [("start", .num 0), ("end", .num 1)]])])) ∧
    ((Transcriber.transcribe { dir := "w", stem := "a", ext := ".mp3" }
      { convert := .success,
        stt := .ok [("text", .str "  hi there \n"),
          ("segments", .arr [.obj [("start", .num 0), ("end", .num 1)]])] }).segWritten.bind
        parseJson) =
      some (segmentsOf [("text", .str "  hi there \n"),
        ("segments", .arr [.obj [("start", .num 0), ("end", .num 1)]])]) :=
  transcribe_persists_text_and_segments _ _ _ rfl rfl rfl

/-- C8: `summarize` dispatches solely on the lower-cased model name against
the `"gemini"` sentinel: on a match it issues no HTTP request and (when the
tool is on the search path) invokes the CLI with the fixed system prompt as
argument and the transcript on standard input; otherwise it issues exactly
one HTTP POST whose body carries the model name and a prompt containing the
full transcript as a substring. -/
theorem summarize_dispatch (g : Bool) (u model t : String) :
    (pyLower model = "gemini" →
      ((Summarizer.summarize g u model t).1.filter isHttpPost = []) ∧
      (g = true → (Summarizer.summarize g u model t).1 = [.geminiCLI SYSTEM_PROMPT t])) ∧
    (pyLower model ≠ "gemini" →
      (Summarizer.summarize g u model t).1 = [.httpPost u (ollamaPayload model t)] ∧
      ((Summarizer.summarize g u model t).1.filter isHttpPost).length = 1 ∧
      ollamaPayload model t = .obj [("model", .str model),
        ("prompt", .str (ollamaPrompt t)), ("stream", .bool false)] ∧
      ∃ pre post, ollamaPrompt t = pre ++ t ++ post) := by
  constructor
  · intro h
    unfold Summarizer.summarize
    rw [if_pos h]
    constructor
    · cases g with
      | true => simp [isHttpPost]
      | false => simp
    · intro hg
      subst hg
      simp
  · intro h
    unfold Summarizer.summarize
    rw [if_neg h]
    refine ⟨rfl, by simp [isHttpPost], rfl,
      ⟨SYSTEM_PROMPT ++ "\n\nTranscript:\n", "", ?_⟩⟩
    rw [ollamaPrompt]
    simp [String.append_assoc]

/-- Witness for C8 at both dispatch branches. -/
theorem summarize_dispatch_witness :
    (Summarizer.summarize true "u" "GeMiNi" "tr").1 = [.geminiCLI SYSTEM_PROMPT "tr"] ∧
    (Summarizer.summarize true "u" "qwen2.5" "tr").1 =
      [.httpPost "u" (ollamaPayload "qwen2.5" "tr")] :=
  ⟨((summarize_dispatch true "u" "GeMiNi" "tr").1 rfl).2 rfl,
   ((summarize_dispatch true "u" "qwen2.5" "tr").2 (by decide)).1⟩

/-- C9: input classification is a case-sensitive prefix test against the
lowercase literals `"http://"` and `"https://"`; an input matching neither —
including an upper-case scheme — is treated as a local path, a download is
then never attempted, and when the file does not exist the run exits 1. -/
theorem input_classification (args : Args) (env : MainEnv) :
    (isUrlInput args.input =
      (strStarts "http://".data args.input.data || strStarts "https://".data args.input.data)) ∧
    (isUrlInput args.input = true →
      Event.downloadAttempt args.input ∈ (mainRun args env).trace) ∧
    (isUrlInput args.input = false → env.localExists = false →
      (mainRun args env).exitCode = 1 ∧ (mainRun args env).trace = [] ∧
      (mainRun args env).tempDirCreated = false) := by
  refine ⟨rfl, ?_, ?_⟩
  · intro h
    unfold mainRun
    rw [h]
    cases hd : env.downloadOk with
    | true =>
      unfold mainPipeline
      cases env.transcribeOk <;> cases args.no_summary <;> simp
    | false => simp
  · intro h hl
    unfold mainRun
    rw [h, hl]
    exact ⟨rfl, rfl, rfl⟩

/-- Witness for C9: an upper-case scheme is treated as a missing local file. -/
theorem input_classification_witness :
    isUrlInput "HTTP://HOST/a.mp3" = false ∧
    (mainRun { input := "HTTP://HOST/a.mp3", no_summary := false, verbose := false }
      { downloadOk := true, downloadName := "", localExists := false,
        localInWorkspace := false, transcribeOk := true, summarizeOk := true,
        outputDirCfg := "output/" }).exitCode = 1 :=
  ⟨by decide,
   ((input_classification
      { input := "HTTP://HOST/a.mp3", no_summary := false, verbose := false }
      { downloadOk := true, downloadName := "", localExists := false,
        localInWorkspace := false, transcribeOk := true, summarizeOk := true,
        outputDirCfg := "output/" }).2.2 (by decide) rfl).1⟩

/-- C10: for every URL input, the temporary download directory is created
before the download is attempted; when the download fails the process exits 1
without removing that directory; it is removed only on the success path,
immediately after the acquired file has been moved into the workspace. -/
theorem tempdir_lifecycle (args : Args) (env : MainEnv) (h : isUrlInput args.input = true) :
    (∃ rest, (mainRun args env).trace =
      Event.mkdtemp :: Event.downloadAttempt args.input :: rest) ∧
    (env.downloadOk = false → (mainRun args env).exitCode = 1 ∧
      (mainRun args env).tempDirCreated = true ∧ (mainRun args env).tempDirRemoved = false ∧
      Event.rmTempDir ∉ (mainRun args env).trace) ∧
    (env.downloadOk = true →
      (∃ rest, (mainRun args env).trace = Event.mkdtemp :: Event.downloadAttempt args.input ::
        Event.moveAudio :: Event.rmTempDir :: rest) ∧
      (mainRun args env).tempDirRemoved = true) := by
  unfold mainRun
  rw [h]
  cases hd : env.downloadOk with
  | false =>
    refine ⟨⟨[], rfl⟩, fun _ => ⟨rfl, rfl, rfl, by simp⟩, fun hc => absurd hc (by simp)⟩
  | true =>
    refine ⟨?_, fun hc => absurd hc (by simp), fun _ => ⟨?_, ?_⟩⟩
    · unfold mainPipeline
      cases env.transcribeOk <;> cases args.no_summary <;> simp
    · unfold mainPipeline
      cases env.transcribeOk <;> cases args.no_summary <;> simp
    · unfold mainPipeline
      cases env.transcribeOk <;> cases args.no_summary <;> simp

/-- Witness for C10: a failing download leaves the temp directory behind. -/
theorem tempdir_lifecycle_witness :
    (mainRun { input := "http://h/a.mp3", no_summary := true, verbose := false }
      { downloadOk := false, downloadName := "", localExists := true,
        localInWorkspace := false, transcribeOk := true, summarizeOk := true,
        outputDirCfg := "output/" }).exitCode = 1 ∧
    (mainRun { input := "http://h/a.mp3", no_summary := true, verbose := false }
      { downloadOk := false, downloadName := "", localExists := true,
        localInWorkspace := false, transcribeOk := true, summarizeOk := true,
        outputDirCfg := "output/" }).tempDirRemoved = false :=
  ⟨((tempdir_lifecycle _ _ (by decide)).2.1 rfl).1,
   ((tempdir_lifecycle _ _ (by decide)).2.1 rfl).2.2.1⟩

end Transcribe
